import Mathlib

/-!
Verification development for the `rs-image-templating` compositing core.

The Rust source is shallowly embedded as follows:
* machine floats (`f32`) are idealised as exact rationals `ℚ`; the
  `num_traits` conversion `T::from_f32` for the integer channel types
  truncates toward zero and is modelled by `ratTrunc`;
* the channel-type trait `PixelChannel`/`PixelChannelBounds` is modelled by a
  `ChannelSpec` record carrying the per-type max/min constants, the
  float-to-channel conversion and the validity check, with the three concrete
  instances `u8Spec`, `u16Spec`, `f32Spec` from the source (for the integer
  channels `Bounded::max_value` and `MAX_PIXEL_VALUE` coincide, so one `maxVal`
  field models both);
* `usize` values are natural numbers; where the source does checked or
  potentially-overflowing 64-bit arithmetic this is made explicit with
  `checkedAdd64` / `checkedSub` against `USIZE_BOUND`;
* `Vec<T>` is a list of elements together with a reserved capacity;
* trait objects (`dyn Layer`, `dyn Filter`) are records of their trait
  methods, with the trait's provided (default) methods defined on the record.
-/

namespace ImageTemplating

/-- Truncation toward zero, modelling `num_traits` float-to-integer
conversion (`f32::to_u8`/`to_u16` cast semantics) on in-range inputs. -/
def ratTrunc (q : ℚ) : ℚ :=
  if q < 0 then -((⌊-q⌋ : ℤ) : ℚ) else ((⌊q⌋ : ℤ) : ℚ)

/-- The capabilities the `PixelChannel`/`PixelChannelBounds` traits provide for
one concrete channel type (`src/bitmap/pixel.rs` lines 26-65). -/
structure ChannelSpec where
  maxVal : ℚ
  minVal : ℚ
  fromF32 : ℚ → ℚ
  valid : ℚ → Bool

/-- The `u8` channel: max 255, every representable value valid, `from_f32`
truncates. -/
def u8Spec : ChannelSpec := ⟨255, 0, ratTrunc, fun _ => true⟩

/-- The `u16` channel: max 65535, every representable value valid, `from_f32`
truncates. -/
def u16Spec : ChannelSpec := ⟨65535, 0, ratTrunc, fun _ => true⟩

/-- The `f32` channel: native range `[0,1]`, `from_f32` is the identity, the
validity check is substantive. -/
def f32Spec : ChannelSpec := ⟨1, 0, id, fun q => decide (0 ≤ q ∧ q ≤ 1)⟩

/-- Rust `AlphaPixel<T>` (`src/bitmap/pixel.rs` lines 78-88); the channel values
live in `ℚ`, with the concrete type recorded by a `ChannelSpec` argument to
the operations that depend on it. -/
structure AlphaPixel where
  r : ℚ
  g : ℚ
  b : ℚ
  a : ℚ
deriving DecidableEq, Repr

/-- Rust `AlphaPixel::default()`: all channels `T::zero()` (fully transparent
black). -/
def AlphaPixel.default : AlphaPixel := ⟨0, 0, 0, 0⟩

/-- Rust `AlphaPixel::as_float_pixel` / the `From<AlphaPixel<T>> for
AlphaPixel<f32>` impl: divide every channel by the channel type's max. -/
def AlphaPixel.as_float_pixel (ch : ChannelSpec) (p : AlphaPixel) : AlphaPixel :=
  ⟨p.r / ch.maxVal, p.g / ch.maxVal, p.b / ch.maxVal, p.a / ch.maxVal⟩

/-- Rust `over_operator` (`src/bitmap/blending.rs` lines 20-42).  `pixel1` is the
foreground (see `BlendingMethod::blend`). -/
def over_operator (ch : ChannelSpec) (pixel1 pixel2 : AlphaPixel) : AlphaPixel :=
  let float_pixel1 := pixel1.as_float_pixel ch
  let float_pixel2 := pixel2.as_float_pixel ch
  let second_alpha_component := float_pixel2.a * (1 - float_pixel1.a)
  let new_alpha := float_pixel1.a + second_alpha_component
  if new_alpha = 0 then AlphaPixel.default
  else
    { r := ch.fromF32 ((float_pixel1.r * float_pixel1.a +
          float_pixel2.r * second_alpha_component) / new_alpha * ch.maxVal)
      g := ch.fromF32 ((float_pixel1.g * float_pixel1.a +
          float_pixel2.g * second_alpha_component) / new_alpha * ch.maxVal)
      b := ch.fromF32 ((float_pixel1.b * float_pixel1.a +
          float_pixel2.b * second_alpha_component) / new_alpha * ch.maxVal)
      a := ch.fromF32 (new_alpha * ch.maxVal) }

/-- Rust `BlendingMethod` (`src/bitmap/blending.rs` lines 3-7). -/
inductive BlendingMethod where
  | replace
  | over
  | custom (f : AlphaPixel → AlphaPixel → AlphaPixel)

/-- Rust `BlendingMethod::blend` (`src/bitmap/blending.rs` lines 9-18): `pixel2`
is the foreground; `Over` calls `over_operator(pixel2, pixel1)`. -/
def BlendingMethod.blend (ch : ChannelSpec) (m : BlendingMethod)
    (pixel1 pixel2 : AlphaPixel) : AlphaPixel :=
  match m with
  | .replace => pixel2
  | .over => over_operator ch pixel2 pixel1
  | .custom f => f pixel1 pixel2

/-- Modelled from the spec's words (section 4.2 / claim C1): the over formula
with `a` bound to the FIRST argument and `b` to the SECOND, exactly as the
claim binds `a` to the background and `b` to the foreground of
`Over.blend(background, foreground)`. -/
def spec_over_formula (ch : ChannelSpec) (a b : AlphaPixel) : AlphaPixel :=
  let af := a.as_float_pixel ch
  let bf := b.as_float_pixel ch
  let a2 := bf.a * (1 - af.a)
  let newAlpha := af.a + a2
  if newAlpha = 0 then AlphaPixel.default
  else
    { r := ch.fromF32 ((af.r * af.a + bf.r * a2) / newAlpha * ch.maxVal)
      g := ch.fromF32 ((af.g * af.a + bf.g * a2) / newAlpha * ch.maxVal)
      b := ch.fromF32 ((af.b * af.a + bf.b * a2) / newAlpha * ch.maxVal)
      a := ch.fromF32 (newAlpha * ch.maxVal) }

/-- Rust `usize::MAX + 1`. -/
def USIZE_BOUND : ℕ := 2 ^ 64

/-- Rust `usize::checked_add`. -/
def checkedAdd64 (a b : ℕ) : Option ℕ :=
  if a + b < USIZE_BOUND then some (a + b) else none

/-- Checked `usize` subtraction: `a - b` panics (debug builds) when `b > a`;
the panic is modelled by `none`. -/
def checkedSub (a b : ℕ) : Option ℕ :=
  if b ≤ a then some (a - b) else none

/-- Rust `Rect` (`src/rect.rs` lines 1-7); the fields are `usize`. -/
structure Rect where
  x : ℕ
  y : ℕ
  width : ℕ
  height : ℕ
deriving DecidableEq, Repr

/-- Rust `Rect::contains` (`src/rect.rs` lines 9-23): overflow-checked upper
bounds, returning `false` if either checked addition overflows. -/
def Rect.contains (r : Rect) (x y : ℕ) : Bool :=
  match checkedAdd64 r.x r.width with
  | none => false
  | some upper_x =>
    match checkedAdd64 r.y r.height with
    | none => false
    | some upper_y =>
      decide (r.x ≤ x) && decide (x < upper_x) && decide (r.y ≤ y) && decide (y < upper_y)

/-- Rust `VecCastErrorKind` (`src/bitmap/pixel.rs` lines 7-12). -/
inductive VecCastErrorKind where
  | incorrectCapacity
  | incorrectLength
  | invalidChannelValue
deriving DecidableEq, Repr

/-- A `Vec<T>` of channel values: the elements together with the reserved
capacity (in `T`s). -/
structure ChanVec where
  data : List ℚ
  cap : ℕ
deriving DecidableEq, Repr

/-- A `Vec<AlphaPixel<T>>`: the elements together with the reserved capacity
(in pixels). -/
structure PixVec where
  data : List AlphaPixel
  cap : ℕ
deriving DecidableEq, Repr

/-- Rust `VecCastError` (`src/bitmap/pixel.rs` lines 14-18): carries the original
vector back to the caller. -/
structure VecCastError where
  original_vec : ChanVec
  kind : VecCastErrorKind
deriving DecidableEq, Repr

/-- The in-place reinterpretation of a channel buffer as a pixel buffer:
consecutive groups of four channels become one pixel (a trailing group of
fewer than four channels is dropped, matching the `len / 4` arithmetic of the
raw-parts casts). -/
def chunk4 : List ℚ → List AlphaPixel
  | r :: g :: b :: a :: t => ⟨r, g, b, a⟩ :: chunk4 t
  | _ => []

/-- Rust `AlphaPixel::try_pixel_vec_from_channels` (`src/bitmap/pixel.rs` lines
336-359): validity check first, then length and capacity multiples of 4; on
success length and capacity are divided by 4, on failure the original vector
is returned inside the error. -/
def try_pixel_vec_from_channels (ch : ChannelSpec) (channel_vec : ChanVec) :
    Except VecCastError PixVec :=
  if channel_vec.data.any (fun p => !(ch.valid p)) then
    .error ⟨channel_vec, .invalidChannelValue⟩
  else if channel_vec.data.length % 4 = 0 then
    if channel_vec.cap % 4 = 0 then
      .ok ⟨chunk4 channel_vec.data, channel_vec.cap / 4⟩
    else .error ⟨channel_vec, .incorrectCapacity⟩
  else .error ⟨channel_vec, .incorrectLength⟩

/-- Rust `AlphaPixel::try_pixel_slice_from_channels` (`src/bitmap/pixel.rs` lines
274-286): only the validity of every channel is checked; the view has length
`len / 4` (trailing channels beyond the last full pixel are ignored). -/
def try_pixel_slice_from_channels (ch : ChannelSpec) (channel_slice : List ℚ) :
    Option (List AlphaPixel) :=
  if channel_slice.any (fun p => !(ch.valid p)) then none
  else some (chunk4 channel_slice)

/-- Rust `AlphaPixel::try_pixel_slice_from_channels_mut` (`src/bitmap/pixel.rs`
lines 303-315): identical checks and shape to the read-only variant. -/
def try_pixel_slice_from_channels_mut (ch : ChannelSpec) (channel_slice : List ℚ) :
    Option (List AlphaPixel) :=
  if channel_slice.any (fun p => !(ch.valid p)) then none
  else some (chunk4 channel_slice)

/-- The local `bounded_multiply` of `BrightnessFilter::filter_pixel`
(`src/filters/brightness.rs` lines 9-11): `(lhs*rhs).min(max).max(min)`. -/
def bounded_multiply (lo hi lhs rhs : ℚ) : ℚ :=
  max (min (lhs * rhs) hi) lo

/-- Rust `BrightnessFilter::filter_pixel` (`src/filters/brightness.rs` lines
8-19): each color channel is multiplied by the multiplier and clamped to the
HARDCODED range `[0.0, 255.0]`; alpha is untouched.  The channel value is fed
in raw (`pixel.r.into()`), not normalized. -/
def BrightnessFilter.filter_pixel (ch : ChannelSpec) (multiplier : ℚ)
    (pixel : AlphaPixel) : AlphaPixel :=
  { r := ch.fromF32 (bounded_multiply 0 255 pixel.r multiplier)
    g := ch.fromF32 (bounded_multiply 0 255 pixel.g multiplier)
    b := ch.fromF32 (bounded_multiply 0 255 pixel.b multiplier)
    a := pixel.a }

/-- Modelled from the spec's words (claim C7): brightness with each color
channel multiplied by the scalar and clamped to the CHANNEL TYPE's valid
range `[T::MIN_PIXEL_VALUE, T::MAX_PIXEL_VALUE]`, alpha untouched. -/
def brightness_filter_claimed (ch : ChannelSpec) (multiplier : ℚ)
    (pixel : AlphaPixel) : AlphaPixel :=
  { r := ch.fromF32 (bounded_multiply ch.minVal ch.maxVal pixel.r multiplier)
    g := ch.fromF32 (bounded_multiply ch.minVal ch.maxVal pixel.g multiplier)
    b := ch.fromF32 (bounded_multiply ch.minVal ch.maxVal pixel.b multiplier)
    a := pixel.a }

/-- A `dyn Filter<T>` trait object (`src/filters/mod.rs` lines 7-25): both
methods default to the identity. -/
structure Filter where
  filter_pixel : AlphaPixel → AlphaPixel := fun pixel => pixel
  filter_transform : ℕ → ℕ → ℕ × ℕ := fun x y => (x, y)

/-- A `dyn Layer<T>` trait object (`src/layers/mod.rs` lines 7-48), as the
record of its three required methods; the provided methods
(`filtered_pixel_at`, `unfiltered_pixel_at`) are defined below exactly as the
trait's default bodies. -/
structure Layer where
  get_rect : Rect
  get_filters : List Filter
  unfiltered_pixel_at_unchecked : ℕ → ℕ → AlphaPixel

/-- Rust `Layer::unfiltered_pixel_at` default body (`src/layers/mod.rs` lines
34-40): bounds check against the layer's own `Rect`. -/
def Layer.unfiltered_pixel_at (l : Layer) (x y : ℕ) : Option AlphaPixel :=
  if l.get_rect.contains x y then some (l.unfiltered_pixel_at_unchecked x y)
  else none

/-- Rust `Layer::filtered_pixel_at` default body (`src/layers/mod.rs` lines
17-29): fold the coordinate transforms in chain order, sample, then fold the
pixel transforms in chain order. -/
def Layer.filtered_pixel_at (l : Layer) (x y : ℕ) : Option AlphaPixel :=
  let transformed_coord := l.get_filters.foldl
    (fun c f => f.filter_transform c.1 c.2) (x, y)
  match l.unfiltered_pixel_at transformed_coord.1 transformed_coord.2 with
  | none => none
  | some p => some (l.get_filters.foldl (fun pixel f => f.filter_pixel pixel) p)

/-- Rust `NewImageError` (`src/bitmap/image.rs` lines 6-12). -/
inductive NewImageError where
  | incorrectWidth
  | zeroWidth
deriving DecidableEq, Repr

/-- Rust `Image<T>` (`src/bitmap/image.rs` lines 14-20): a flat row-major pixel
buffer with width and height. -/
structure Image where
  pixels : List AlphaPixel
  width : ℕ
  height : ℕ
deriving DecidableEq, Repr

/-- Rust `Image::new` (`src/bitmap/image.rs` lines 47-49). -/
def Image.new : Image := ⟨[], 0, 0⟩

/-- Rust `Image::from_pixels` (`src/bitmap/image.rs` lines 72-87): zero width
needs an empty buffer, otherwise the length must divide evenly by the
width and the height is the quotient. -/
def Image.from_pixels (pixels : List AlphaPixel) (width : ℕ) :
    Except NewImageError Image :=
  if width = 0 then
    if pixels.isEmpty then .ok Image.new else .error .zeroWidth
  else if pixels.length % width ≠ 0 then .error .incorrectWidth
  else .ok ⟨pixels, width, pixels.length / width⟩

/-- Rust `Image::index_of_unchecked` (`src/bitmap/image.rs` lines 123-125):
`width*y + x`. -/
def Image.index_of_unchecked (img : Image) (x y : ℕ) : ℕ :=
  img.width * y + x

/-- Rust `Image::contains` (`src/bitmap/image.rs` lines 218-220). -/
def Image.contains (img : Image) (x y : ℕ) : Bool :=
  decide (x < img.width) && decide (y < img.height)

/-- Rust `Image::index_of` (`src/bitmap/image.rs` lines 138-144): bounds-checked
index. -/
def Image.index_of (img : Image) (x y : ℕ) : Option ℕ :=
  if img.contains x y then some (img.index_of_unchecked x y) else none

/-- Rust `Image::pixel_at` (`src/bitmap/image.rs` lines 188-190). -/
def Image.pixel_at (img : Image) (x y : ℕ) : Option AlphaPixel :=
  (img.index_of x y).bind (fun i => img.pixels[i]?)

/-- Rust's `slice.get(start..end)`: `none` unless `start <= end <= len`. -/
def listSliceGet (l : List AlphaPixel) (s e : ℕ) : Option (List AlphaPixel) :=
  if s ≤ e ∧ e ≤ l.length then some ((l.drop s).take (e - s)) else none

/-- Rust `Image::row` (`src/bitmap/image.rs` lines 157-161): the slice
`[index_of(0,y), index_of_unchecked(0,y+1))`, `none` when the bounds check
on `(0, y)` fails. -/
def Image.row (img : Image) (y : ℕ) : Option (List AlphaPixel) :=
  (img.index_of 0 y).bind (fun s =>
    listSliceGet img.pixels s (img.index_of_unchecked 0 (y + 1)))

/-- Outcome of `Image::draw_subimage`: `panicked` models a debug-build
arithmetic-overflow or slice-indexing panic, `noneResult` models the `?`
early return of `None`, `someResult` models `Some(())`; both carry the
destination's pixel buffer at exit. -/
inductive DrawResult where
  | panicked
  | noneResult (pixels : List AlphaPixel)
  | someResult (pixels : List AlphaPixel)
deriving DecidableEq, Repr

/-- The row loop of `Image::draw_subimage` (`src/bitmap/image.rs` lines
231-238), peeled off the surrounding function: one iteration per `row in
0..subim_height`, threading the destination pixel buffer. -/
def drawRows (ch : ChannelSpec) (dest : Image) (image : Image) (x y : ℕ)
    (blend : BlendingMethod) (subim_width : ℕ) :
    ℕ → ℕ → List AlphaPixel → DrawResult
  | 0, _, pixels => .someResult pixels
  | remaining + 1, row, pixels =>
    -- `self.index_of(x, y+row)?` — the `?` returns `None` from the function
    if dest.contains x (y + row) then
      let s := dest.index_of_unchecked x (y + row)
      let e := dest.index_of_unchecked (x + subim_width) (y + row)
      -- `image.row(row).unwrap()` panics when the row lookup fails
      match Image.row image row with
      | none => .panicked
      | some src_row =>
        -- `&src_row[0..subim_width]` panics when the slice is too short
        if subim_width ≤ src_row.length then
          -- `self.pixels[slice]` panics when the range exceeds the buffer
          if s ≤ e ∧ e ≤ pixels.length then
            let dest_slice := (pixels.drop s).take (e - s)
            let blended := List.zipWith (fun d sp => blend.blend ch d sp)
              dest_slice (src_row.take subim_width)
            drawRows ch dest image x y blend subim_width remaining (row + 1)
              (pixels.take s ++ blended ++ pixels.drop e)
          else .panicked
        else .panicked
    else .noneResult pixels

/-- Rust `Image::draw_subimage` (`src/bitmap/image.rs` lines 227-241): clipped
width/height are `(x+image.width).min(self.width) - x` and the analogue for
y, computed with `usize` arithmetic whose overflow/underflow is a
debug-build panic; then the row loop. -/
def Image.draw_subimage (ch : ChannelSpec) (dest : Image) (image : Image)
    (x y : ℕ) (blend : BlendingMethod) : DrawResult :=
  match checkedAdd64 x image.width with
  | none => .panicked
  | some xw =>
    match checkedSub (min xw dest.width) x with
    | none => .panicked
    | some subim_width =>
      match checkedAdd64 y image.height with
      | none => .panicked
      | some yh =>
        match checkedSub (min yh dest.height) y with
        | none => .panicked
        | some subim_height =>
          drawRows ch dest image x y blend subim_width subim_height 0 dest.pixels

/-- Rust `Canvas<T>` (`src/canvas.rs` lines 9-14). -/
structure Canvas where
  layers : List Layer
  background : AlphaPixel
  width : ℕ
  height : ℕ

/-- Rust `Canvas::combined_pixel_at` (`src/canvas.rs` lines 25-36): fold the
layer list in order, blending each layer's filtered pixel over the running
pixel, skipping layers that report no pixel. -/
def Canvas.combined_pixel_at (ch : ChannelSpec) (c : Canvas) (x y : ℕ) :
    AlphaPixel :=
  c.layers.foldl
    (fun running_pixel layer =>
      match layer.filtered_pixel_at x y with
      | some p => BlendingMethod.blend ch .over running_pixel p
      | none => running_pixel)
    c.background

/-- The pixel list built by the nested loops of `Canvas::flatten`
(`src/canvas.rs` lines 39-44): rows pushed in row-major order. -/
def Canvas.flatten_pixels (ch : ChannelSpec) (c : Canvas) : List AlphaPixel :=
  ((List.range c.height).map (fun row =>
    (List.range c.width).map (fun col => c.combined_pixel_at ch col row))).flatten

/-- Rust `Canvas::flatten` (`src/canvas.rs` lines 38-47): build the pixel list and
hand it to `Image::from_pixels`; the trailing `.unwrap()` is modelled by
`Except.toOption`, so a hypothetical error would surface as `none`. -/
def Canvas.flatten (ch : ChannelSpec) (c : Canvas) : Option Image :=
  (Image.from_pixels (c.flatten_pixels ch) c.width).toOption

/-- A concrete one-layer canvas used to witness the flatten theorem: a 2x1
canvas whose single layer covers the pixel (0,0) with an opaque grey. -/
def c2Canvas : Canvas :=
  { layers := [⟨⟨0, 0, 1, 1⟩, [], fun _ _ => ⟨3, 3, 3, 255⟩⟩]
    background := ⟨1, 2, 3, 4⟩
    width := 2
    height := 1 }

/-- Helper: the number of pixels obtained from reinterpreting a channel list
is the channel count divided by four (truncating). -/
theorem chunk4_length (l : List ℚ) : (chunk4 l).length = l.length / 4 := by
  induction l using chunk4.induct with
  | case1 r g b a t ih =>
    simp only [chunk4, List.length_cons, ih]
    omega
  | case2 l h =>
    match l with
    | [] => simp [chunk4]
    | [a] => simp [chunk4]
    | [a, b] => simp [chunk4]
    | [a, b, c] => simp [chunk4]
    | a :: b :: c :: d :: t => exact absurd rfl (h a b c d t)

/-- Helper: length of a row-major grid of `h` rows of width `w`. -/
theorem grid_length {α : Type} (w h : ℕ) (f : ℕ → ℕ → α) :
    (((List.range h).map (fun row =>
      (List.range w).map (fun col => f col row))).flatten).length = h * w := by
  induction h with
  | zero => simp
  | succ h ih =>
    rw [List.range_succ, List.map_append, List.flatten_append]
    simp only [List.length_append, ih, List.map_cons, List.map_nil,
      List.flatten_cons, List.flatten_nil, List.append_nil, List.length_map,
      List.length_range]
    ring

/-- Helper: indexing a row-major grid at `w*y + x` recovers the generating
function at `(x, y)`. -/
theorem grid_getElem {α : Type} (w : ℕ) (f : ℕ → ℕ → α) :
    ∀ h x y, x < w → y < h →
      (((List.range h).map (fun row =>
        (List.range w).map (fun col => f col row))).flatten)[w * y + x]? = some (f x y) := by
  intro h
  induction h with
  | zero => intro x y hx hy; omega
  | succ n ih =>
    intro x y hx hy
    rw [List.range_succ, List.map_append, List.flatten_append, List.getElem?_append]
    have hplen : (((List.range n).map (fun row =>
        (List.range w).map (fun col => f col row))).flatten).length = n * w :=
      grid_length w n f
    by_cases hy2 : y < n
    · have hidx : w * y + x < n * w := by
        calc w * y + x < w * y + w := by omega
        _ = w * (y + 1) := by ring
        _ ≤ w * n := Nat.mul_le_mul_left w hy2
        _ = n * w := Nat.mul_comm w n
      rw [if_pos (by rw [hplen]; exact hidx)]
      exact ih x y hx hy2
    · have hyn : y = n := by omega
      subst hyn
      have hge : ¬ (w * y + x < (((List.range y).map (fun row =>
          (List.range w).map (fun col => f col row))).flatten).length) := by
        rw [hplen]
        have := Nat.mul_comm w y
        omega
      rw [if_neg hge, hplen]
      have hsub : w * y + x - y * w = x := by
        have := Nat.mul_comm w y
        omega
      rw [hsub]
      simp [List.getElem?_map, List.getElem?_range, hx]

/-- Helper: the pixel list built by `Canvas::flatten` has `height * width`
elements. -/
theorem flatten_pixels_length (ch : ChannelSpec) (c : Canvas) :
    (c.flatten_pixels ch).length = c.height * c.width :=
  grid_length c.width c.height (fun col row => c.combined_pixel_at ch col row)

/-- C1 (counterexample): with `a` bound to the background and `b` to the
foreground — the binding the claim states — the spec formula disagrees with
`BlendingMethod::Over.blend` already on two opaque `u8` pixels: blending
opaque blue over opaque red yields blue, while the claimed binding would
yield red. -/
theorem c1_claim_counterexample :
    BlendingMethod.blend u8Spec .over ⟨255, 0, 0, 255⟩ ⟨0, 0, 255, 255⟩ ≠
      spec_over_formula u8Spec ⟨255, 0, 0, 255⟩ ⟨0, 0, 255, 255⟩ := by
  norm_num [BlendingMethod.blend, over_operator, spec_over_formula,
    AlphaPixel.as_float_pixel, u8Spec, ratTrunc, AlphaPixel.default]

/-- C1 (amended): `Over.blend(background, foreground)` computes the spec's
over formula with `a` bound to the FOREGROUND and `b` bound to the
BACKGROUND: both normalized to float channels, `a2 = b.alpha*(1-a.alpha)`,
`newAlpha = a.alpha + a2`, transparent black when `newAlpha = 0`, otherwise
`(a.color*a.alpha + b.color*a2)/newAlpha`, scaled back by the channel max
and converted. -/
theorem c1_over_binding (ch : ChannelSpec) (background foreground : AlphaPixel) :
    BlendingMethod.blend ch .over background foreground =
      spec_over_formula ch foreground background := rfl

/-- C2: for every canvas and every in-bounds coordinate, the pixel of
`flatten()` at `(x,y)` is the fold that starts from the background pixel
and blends each layer's filtered pixel over the running pixel in layer-list
order, skipping layers that report no pixel. -/
theorem c2_flatten_fold (ch : ChannelSpec) (c : Canvas) (x y : ℕ)
    (hx : x < c.width) (hy : y < c.height) :
    ∃ img, c.flatten ch = some img ∧
      img.pixel_at x y = some (c.layers.foldl
        (fun running_pixel layer =>
          match layer.filtered_pixel_at x y with
          | some p => BlendingMethod.blend ch .over running_pixel p
          | none => running_pixel)
        c.background) := by
  have hw : c.width ≠ 0 := by omega
  have hlen := flatten_pixels_length ch c
  have hmod : (c.flatten_pixels ch).length % c.width = 0 := by
    rw [hlen]; exact Nat.mul_mod_left c.height c.width
  have hh : (c.flatten_pixels ch).length / c.width = c.height := by
    rw [hlen]; exact Nat.mul_div_cancel c.height (by omega)
  refine ⟨⟨c.flatten_pixels ch, c.width, (c.flatten_pixels ch).length / c.width⟩, ?_, ?_⟩
  · unfold Canvas.flatten Image.from_pixels
    simp [hw, hmod, Except.toOption]
  · unfold Image.pixel_at Image.index_of Image.contains Image.index_of_unchecked
    simp only [hh]
    rw [if_pos (by simp [hx, hy])]
    simp only [Option.bind_some, Option.some_bind]
    exact grid_getElem c.width (fun col row => c.combined_pixel_at ch col row)
      c.height x y hx hy

/-- C2 witness: the flatten theorem applied to a concrete 2x1 one-layer
canvas at `(0, 0)`. -/
theorem c2_flatten_fold_witness :
    0 < c2Canvas.width ∧ 0 < c2Canvas.height ∧
    (∃ img, c2Canvas.flatten u8Spec = some img ∧
      img.pixel_at 0 0 = some (c2Canvas.layers.foldl
        (fun running_pixel layer =>
          match layer.filtered_pixel_at 0 0 with
          | some p => BlendingMethod.blend u8Spec .over running_pixel p
          | none => running_pixel)
        c2Canvas.background)) :=
  ⟨by decide, by decide, c2_flatten_fold u8Spec c2Canvas 0 0 (by decide) (by decide)⟩

/-- C3: the default `filtered_pixel_at` first folds every filter's
coordinate transform in chain order, then samples bounds-checked against
the layer's own `Rect` (no pixel when out of bounds), and otherwise folds
every filter's pixel transform in the same chain order over the sampled
pixel. -/
theorem c3_filtered_pixel_chain (l : Layer) (x y : ℕ) :
    l.filtered_pixel_at x y =
      (let tc := l.get_filters.foldl (fun c f => f.filter_transform c.1 c.2) (x, y)
       if l.get_rect.contains tc.1 tc.2 then
         some (l.get_filters.foldl (fun pixel f => f.filter_pixel pixel)
           (l.unfiltered_pixel_at_unchecked tc.1 tc.2))
       else none) := by
  unfold Layer.filtered_pixel_at Layer.unfiltered_pixel_at
  by_cases h : l.get_rect.contains
    ((l.get_filters.foldl (fun c f => f.filter_transform c.1 c.2) (x, y)).1)
    ((l.get_filters.foldl (fun c f => f.filter_transform c.1 c.2) (x, y)).2) <;>
  simp [h]

/-- C4: `try_pixel_vec_from_channels` fails exactly when the length is not a
multiple of 4, the capacity is not a multiple of 4, or some channel value is
invalid; every failure carries the original vector unchanged; success halves
the length and capacity twice (divides by 4). -/
theorem c4_vec_cast_spec (ch : ChannelSpec) (v : ChanVec) :
    ((try_pixel_vec_from_channels ch v).isOk = false ↔
      (v.data.length % 4 ≠ 0 ∨ v.cap % 4 ≠ 0 ∨ ∃ c ∈ v.data, ch.valid c = false)) ∧
    (∀ e, try_pixel_vec_from_channels ch v = .error e → e.original_vec = v) ∧
    (∀ o, try_pixel_vec_from_channels ch v = .ok o →
      o.data.length = v.data.length / 4 ∧ o.cap = v.cap / 4) := by
  unfold try_pixel_vec_from_channels
  by_cases hv : v.data.any (fun p => !(ch.valid p))
  · have hex : ∃ c ∈ v.data, ch.valid c = false := by
      simpa [List.any_eq_true] using hv
    simp [hv, hex, Except.isOk, Except.toBool]
  · have hex : ¬ ∃ c ∈ v.data, ch.valid c = false := by
      simpa [List.any_eq_true] using hv
    by_cases hl : v.data.length % 4 = 0
    · by_cases hc : v.cap % 4 = 0
      · simp [hv, hl, hc, hex, Except.isOk, Except.toBool, chunk4_length]
      · simp [hv, hl, hc, hex, Except.isOk, Except.toBool]
    · simp [hv, hl, hex, Except.isOk, Except.toBool]

/-- C4 witness: the success clause applied to the concrete buffer
`[1,2,3,4]` with capacity 8. -/
theorem c4_vec_cast_spec_witness :
    (PixVec.mk [⟨1, 2, 3, 4⟩] 2).data.length = (ChanVec.mk [1, 2, 3, 4] 8).data.length / 4 ∧
    (PixVec.mk [⟨1, 2, 3, 4⟩] 2).cap = (ChanVec.mk [1, 2, 3, 4] 8).cap / 4 :=
  (c4_vec_cast_spec u8Spec ⟨[1, 2, 3, 4], 8⟩).2.2 ⟨[⟨1, 2, 3, 4⟩], 2⟩ rfl

/-- C5: `Rect::contains` is the half-open box membership whenever the upper
bounds do not overflow `usize`, and is constantly `false` for rects whose
`x+width` or `y+height` overflows. -/
theorem c5_rect_contains_spec (r : Rect) (x y : ℕ) :
    (r.x + r.width < USIZE_BOUND → r.y + r.height < USIZE_BOUND →
      (r.contains x y = true ↔
        (r.x ≤ x ∧ x < r.x + r.width ∧ r.y ≤ y ∧ y < r.y + r.height))) ∧
    (USIZE_BOUND ≤ r.x + r.width ∨ USIZE_BOUND ≤ r.y + r.height →
      r.contains x y = false) := by
  unfold Rect.contains checkedAdd64
  constructor
  · intro h1 h2
    simp only [if_pos h1, if_pos h2]
    simp [and_assoc]
  · intro h
    rcases h with h | h
    · simp [Nat.not_lt.mpr h]
    · by_cases h1 : r.x + r.width < USIZE_BOUND
      · simp [if_pos h1, Nat.not_lt.mpr h]
      · simp [Nat.not_lt.mpr (Nat.not_lt.mp h1)]

/-- C5 witness: both clauses at concrete rects — an ordinary rect and a rect
whose `x+width` overflows 64-bit `usize`. -/
theorem c5_rect_contains_spec_witness :
    ((Rect.mk 2 3 4 5).contains 3 4 = true ↔
      (2 ≤ 3 ∧ 3 < 2 + 4 ∧ 3 ≤ 4 ∧ 4 < 3 + 5)) ∧
    (Rect.mk 1 0 (2 ^ 64 - 1) 1).contains 0 0 = false :=
  ⟨(c5_rect_contains_spec ⟨2, 3, 4, 5⟩ 3 4).1 (by decide) (by decide),
   (c5_rect_contains_spec ⟨1, 0, 2 ^ 64 - 1, 1⟩ 0 0).2 (Or.inl (by decide))⟩

/-- C6 (counterexample): blending a zero-alpha but non-black pixel with the
fully transparent pixel is NOT the identity — the over operator maps it to
transparent black, because `newAlpha = 0` triggers the default-pixel
branch. -/
theorem c6_claim_counterexample :
    BlendingMethod.blend u8Spec .over ⟨100, 100, 100, 0⟩ AlphaPixel.default ≠
      ⟨100, 100, 100, 0⟩ := by
  norm_num [BlendingMethod.blend, over_operator, AlphaPixel.as_float_pixel,
    u8Spec, ratTrunc, AlphaPixel.default]

/-- C6 (amended): blending with the fully transparent pixel is the identity
in both argument positions for every channel type with positive max and
every pixel whose alpha is nonzero and whose channel values are fixed by the
float round-trip conversion (all integer-valued `u8`/`u16` pixels, and every
`f32` pixel). -/
theorem c6_transparent_identity (ch : ChannelSpec) (p : AlphaPixel)
    (hmax : 0 < ch.maxVal) (ha : p.a ≠ 0)
    (hfix : ch.fromF32 p.r = p.r ∧ ch.fromF32 p.g = p.g ∧
      ch.fromF32 p.b = p.b ∧ ch.fromF32 p.a = p.a) :
    BlendingMethod.blend ch .over p AlphaPixel.default = p ∧
    BlendingMethod.blend ch .over AlphaPixel.default p = p := by
  obtain ⟨pr, pg, pb, pa⟩ := p
  obtain ⟨h1, h2, h3, h4⟩ := hfix
  simp only at ha h1 h2 h3 h4
  have hmn : ch.maxVal ≠ 0 := ne_of_gt hmax
  have hna : pa / ch.maxVal ≠ 0 := div_ne_zero ha hmn
  constructor
  · simp only [BlendingMethod.blend, over_operator, AlphaPixel.as_float_pixel,
      AlphaPixel.default, zero_div, sub_zero, mul_one, zero_add, zero_mul]
    rw [if_neg hna]
    congr 1
    · rw [mul_div_cancel_right₀ _ hna, div_mul_cancel₀ _ hmn, h1]
    · rw [mul_div_cancel_right₀ _ hna, div_mul_cancel₀ _ hmn, h2]
    · rw [mul_div_cancel_right₀ _ hna, div_mul_cancel₀ _ hmn, h3]
    · rw [div_mul_cancel₀ _ hmn, h4]
  · simp only [BlendingMethod.blend, over_operator, AlphaPixel.as_float_pixel,
      AlphaPixel.default, zero_div, zero_mul, mul_zero, add_zero, zero_add]
    rw [if_neg hna]
    congr 1
    · rw [mul_div_cancel_right₀ _ hna, div_mul_cancel₀ _ hmn, h1]
    · rw [mul_div_cancel_right₀ _ hna, div_mul_cancel₀ _ hmn, h2]
    · rw [mul_div_cancel_right₀ _ hna, div_mul_cancel₀ _ hmn, h3]
    · rw [div_mul_cancel₀ _ hmn, h4]

/-- C6 witness: the amended identity at the concrete `u8` pixel
`(100, 55, 231, 102)`. -/
theorem c6_transparent_identity_witness :
    0 < u8Spec.maxVal ∧ (AlphaPixel.mk 100 55 231 102).a ≠ 0 ∧
    (BlendingMethod.blend u8Spec .over ⟨100, 55, 231, 102⟩ AlphaPixel.default =
        ⟨100, 55, 231, 102⟩ ∧
      BlendingMethod.blend u8Spec .over AlphaPixel.default ⟨100, 55, 231, 102⟩ =
        ⟨100, 55, 231, 102⟩) :=
  ⟨by norm_num [u8Spec], by norm_num,
    c6_transparent_identity u8Spec ⟨100, 55, 231, 102⟩ (by norm_num [u8Spec])
      (by norm_num)
      (by refine ⟨?_, ?_, ?_, ?_⟩ <;> norm_num [u8Spec, ratTrunc])⟩

/-- C7 (code evaluated at the failing input): `BrightnessFilter` clamps to
the hardcoded range `[0, 255]` for every channel type, so on a `u16` pixel
with red channel 1000 and multiplier 1 it returns red 255, while the
claimed clamp to the channel type's own valid range would return 1000. -/
theorem c7_brightness_hardcoded_clamp :
    BrightnessFilter.filter_pixel u16Spec 1 ⟨1000, 0, 0, 255⟩ = ⟨255, 0, 0, 255⟩ ∧
    brightness_filter_claimed u16Spec 1 ⟨1000, 0, 0, 255⟩ = ⟨1000, 0, 0, 255⟩ := by
  constructor <;>
  norm_num [BrightnessFilter.filter_pixel, brightness_filter_claimed,
    bounded_multiply, u16Spec, ratTrunc]

/-- C8 (counterexample): a 13-channel `u8` slice reinterprets successfully
even though its length is not a multiple of 4, so the slice views do NOT
carry the owned-buffer precondition the claim states. -/
theorem c8_claim_counterexample :
    (try_pixel_slice_from_channels u8Spec (List.replicate 13 0)).isSome = true ∧
    ¬((List.replicate 13 (0 : ℚ)).length % 4 = 0) := by decide

/-- C8 (amended): the slice views (read-only and mutable, which behave
identically) succeed exactly when every channel value is valid — the length
is NOT checked; trailing channels beyond the last full pixel are ignored and
the view has `len / 4` pixels — and fail by returning no view. -/
theorem c8_slice_cast_validity (ch : ChannelSpec) (l : List ℚ) :
    ((try_pixel_slice_from_channels ch l).isSome = true ↔ ∀ c ∈ l, ch.valid c = true) ∧
    try_pixel_slice_from_channels_mut ch l = try_pixel_slice_from_channels ch l ∧
    (∀ out, try_pixel_slice_from_channels ch l = some out →
      out.length = l.length / 4) := by
  unfold try_pixel_slice_from_channels try_pixel_slice_from_channels_mut
  by_cases hv : l.any (fun p => !(ch.valid p))
  · have hex : ¬ ∀ c ∈ l, ch.valid c = true := by
      simp only [List.any_eq_true, Bool.not_eq_true'] at hv
      obtain ⟨c, hc, hcv⟩ := hv
      intro hall
      rw [hall c hc] at hcv
      simp at hcv
    simp [hv, hex]
  · have hall : ∀ c ∈ l, ch.valid c = true := by
      simp only [List.any_eq_true, Bool.not_eq_true'] at hv
      push_neg at hv
      intro c hc
      have := hv c hc
      simpa using this
    simp [hv, chunk4_length]
    exact hall

/-- C8 witness: the truncating-length clause applied to a concrete
5-channel slice, yielding one pixel. -/
theorem c8_slice_cast_validity_witness :
    ([⟨1, 2, 3, 4⟩] : List AlphaPixel).length = ([1, 2, 3, 4, 5] : List ℚ).length / 4 :=
  (c8_slice_cast_validity u8Spec [1, 2, 3, 4, 5]).2.2 [⟨1, 2, 3, 4⟩] rfl

/-- C9 (code evaluated at the failing inputs): drawing a 1x1 subimage onto a
2x2 image at offset `x = 3 > width` hits the `usize` subtraction underflow
(a debug-build panic), and at `x = 2 = width` the bounds-checked `index_of`
makes the function return `None` — the "coordinate not in bounds" signal —
with the destination pixels unchanged; neither is the claimed
success-with-nothing-drawn result. -/
theorem c9_draw_subimage_out_of_bounds :
    Image.draw_subimage u8Spec ⟨[⟨1, 1, 1, 1⟩, ⟨1, 1, 1, 1⟩, ⟨1, 1, 1, 1⟩, ⟨1, 1, 1, 1⟩], 2, 2⟩
        ⟨[⟨2, 2, 2, 2⟩], 1, 1⟩ 3 0 .replace = .panicked ∧
    Image.draw_subimage u8Spec ⟨[⟨1, 1, 1, 1⟩, ⟨1, 1, 1, 1⟩, ⟨1, 1, 1, 1⟩, ⟨1, 1, 1, 1⟩], 2, 2⟩
        ⟨[⟨2, 2, 2, 2⟩], 1, 1⟩ 2 0 .replace
      = .noneResult [⟨1, 1, 1, 1⟩, ⟨1, 1, 1, 1⟩, ⟨1, 1, 1, 1⟩, ⟨1, 1, 1, 1⟩] :=
  ⟨rfl, rfl⟩

/-- C10: `Canvas::flatten` is total — the pixel list it builds always has
length exactly `width*height`, so the internal `Image::from_pixels` call
always returns `Ok` and the final unwrap is unreachable. -/
theorem c10_flatten_total (ch : ChannelSpec) (c : Canvas) :
    (c.flatten_pixels ch).length = c.width * c.height ∧
    ∃ img, Image.from_pixels (c.flatten_pixels ch) c.width = .ok img := by
  have hlen := flatten_pixels_length ch c
  refine ⟨by rw [hlen, Nat.mul_comm], ?_⟩
  unfold Image.from_pixels
  by_cases hw : c.width = 0
  · have h0 : (c.flatten_pixels ch).length = 0 := by rw [hlen, hw]; ring
    have hnil : c.flatten_pixels ch = [] := List.eq_nil_of_length_eq_zero h0
    simp [hw, hnil]
  · have hmod : (c.flatten_pixels ch).length % c.width = 0 := by
      rw [hlen]; exact Nat.mul_mod_left c.height c.width
    simp [hw, hmod]

end ImageTemplating
